import Mathlib

/- Verification development for the radar vital-signs pipeline in
`src/BGT60TR13C_Vital_Signal.py`.

The Python program is shallowly embedded: module-level configuration
constants become Lean definitions with the same names and defining
formulas; the numpy slow-time ring-buffer idiom (`np.roll(buf, -1)`
followed by writes into the trailing slots) becomes explicit list
operations; per-cycle mutation of the module-level buffers becomes
explicit state passing.  Machine floats are modelled as exact rationals
(`ℚ`) wherever the program's arithmetic is rational, and as `ℝ`/`ℂ` for
the FFT front end.  Library calls (`np.unwrap`, `scipy.signal.find_peaks`,
`np.fft.fft`, `int`, `round`) are embedded by their documented
algorithms.  Comments cite the source line numbers being translated. -/

/- ~~~~~~~~~~ Device and pipeline configuration (source lines 41-90) ~~~~~~~~~~ -/

def num_rx_antennas : ℕ := 3

def frame_rate : ℕ := 20

def number_of_chirps : ℕ := 1

def samples_per_chirp : ℕ := 64

def vital_signs_sample_rate : ℕ := 1 * frame_rate

def processing_window_time : ℕ := 20

def buffer_time : ℕ := 5 * processing_window_time

def estimation_time : ℕ := 5

-- line 59: fft_size_range_profile = samples_per_chirp * 2
def fft_size_range_profile : ℕ := samples_per_chirp * 2

def epsilon_value : ℚ := 0.00000001

def peak_finding_distance : ℚ := 0.01

-- line 68: buffer_data_size = int(buffer_time * vital_signs_sample_rate)
def buffer_data_size : ℕ := buffer_time * vital_signs_sample_rate

def processing_data_size : ℕ := processing_window_time * vital_signs_sample_rate

def fft_size_vital_signs : ℕ := processing_data_size * 4

def estimation_rate : ℕ := vital_signs_sample_rate

def estimation_index_breathing : ℕ := buffer_data_size - estimation_time * estimation_rate

def estimation_index_heart : ℕ := buffer_data_size - estimation_time * estimation_rate

def low_breathing : ℚ := 0.15

def high_breathing : ℚ := 0.6

def low_heart : ℚ := 0.85

def high_heart : ℚ := 2.4

def nyquist_freq : ℚ := 0.5 * (vital_signs_sample_rate : ℚ)

def filter_order : ℕ := vital_signs_sample_rate + 1

-- thresholds of the presence gate (source lines 424 and 429)
def min_variance_threshold : ℚ := 0.0001

def min_envelope_threshold : ℚ := 0.001

/- ~~~~~~~~~~ Python numeric conversions ~~~~~~~~~~ -/

/-- Python `int()` on a real number: truncation toward zero. -/
def pyInt (q : ℚ) : ℤ := if 0 ≤ q then ⌊q⌋ else ⌈q⌉

/-- Python `round()` on a real number: round-half-to-even (banker's rounding). -/
def pyRound (q : ℚ) : ℤ :=
  if q - ⌊q⌋ < 1 / 2 then ⌊q⌋
  else if (1 : ℚ) / 2 < q - ⌊q⌋ then ⌊q⌋ + 1
  else if ⌊q⌋ % 2 = 0 then ⌊q⌋ else ⌊q⌋ + 1

-- lines 87-90: spectral search-index bounds derived from the band edges
def index_start_breathing : ℕ :=
  (pyInt (low_breathing / (vital_signs_sample_rate : ℚ) * (fft_size_vital_signs : ℚ))).toNat

def index_end_breathing : ℕ :=
  (pyInt (high_breathing / (vital_signs_sample_rate : ℚ) * (fft_size_vital_signs : ℚ))).toNat

def index_start_heart : ℕ :=
  (pyInt (low_heart / (vital_signs_sample_rate : ℚ) * (fft_size_vital_signs : ℚ))).toNat

def index_end_heart : ℕ :=
  (pyInt (high_heart / (vital_signs_sample_rate : ℚ) * (fft_size_vital_signs : ℚ))).toNat

/- ~~~~~~~~~~ numpy array idioms as list operations ~~~~~~~~~~ -/

/-- The trailing `n` elements of a list: numpy `l[-n:]` (for `0 < n ≤ len`). -/
def lastN {α : Type} (n : ℕ) (l : List α) : List α := l.drop (l.length - n)

/-- numpy `np.roll(l, -1)`: cyclic left shift by one. -/
def np_roll_one {α : Type} (l : List α) : List α := l.drop 1 ++ l.take 1

/-- Assignment `l[-1] = v` into the last slot of a (nonempty) array. -/
def set_last {α : Type} (l : List α) (v : α) : List α := l.dropLast ++ [v]

/-- The net effect of `np.roll(l, -1)` followed by `l[-1] = v`: drop the
oldest element (index 0) and append the newest at the end. -/
def ring_push {α : Type} (l : List α) (v : α) : List α := l.drop 1 ++ [v]

/-- Python slice `l[a:b]` (with clamping semantics for `b > len`). -/
def pySlice {α : Type} (l : List α) (a b : ℕ) : List α := (l.take b).drop a

/-- numpy `np.mean` over a 1-D array (empty input handled by `ℚ`'s `x / 0 = 0`;
the program never takes the mean of an empty buffer). -/
def listMean (l : List ℚ) : ℚ := l.sum / (l.length : ℚ)

/-- numpy `np.var`: population variance. -/
def listVar (l : List ℚ) : ℚ :=
  ((l.map (fun x => (x - listMean l) ^ 2)).sum) / (l.length : ℚ)

/-- numpy `np.argmax`: index of the first maximal element (helper loop). -/
def argmax_go : List ℚ → ℕ → ℕ → ℚ → ℕ
  | [], _, bi, _ => bi
  | x :: xs, i, bi, bv => if bv < x then argmax_go xs (i + 1) i x else argmax_go xs (i + 1) bi bv

/-- numpy `np.argmax`: index of the first maximal element. -/
def argmax_idx : List ℚ → ℕ
  | [] => 0
  | x :: xs => argmax_go xs 1 0 x

/- ~~~~~~~~~~ basic ring-buffer lemmas ~~~~~~~~~~ -/

theorem set_last_np_roll_one {α : Type} (l : List α) (v : α) (h : l ≠ []) :
    set_last (np_roll_one l) v = ring_push l v := by
  cases l with
  | nil => exact absurd rfl h
  | cons x xs =>
    simp [set_last, np_roll_one, ring_push]

theorem length_ring_push {α : Type} (l : List α) (v : α) (h : l ≠ []) :
    (ring_push l v).length = l.length := by
  cases l with
  | nil => exact absurd rfl h
  | cons x xs => simp [ring_push]

theorem ring_push_ne_nil {α : Type} (l : List α) (v : α) : ring_push l v ≠ [] := by
  simp [ring_push]

/-- After a push, the last element is the pushed value. -/
theorem getLastD_ring_push {α : Type} (l : List α) (v d : α) :
    (ring_push l v).getLastD d = v := by
  simp [ring_push, List.getLastD_concat]

/-- Folding a sequence of pushes into a buffer. -/
def push_all {α : Type} (l : List α) (vs : List α) : List α := vs.foldl ring_push l

theorem length_push_all {α : Type} (l : List α) (vs : List α) (h : l ≠ []) :
    (push_all l vs).length = l.length ∧ push_all l vs ≠ [] := by
  induction vs generalizing l with
  | nil => exact ⟨rfl, h⟩
  | cons v vs ih =>
    have h1 := length_ring_push l v h
    have h2 := ring_push_ne_nil l v
    have := ih (ring_push l v) h2
    simp only [push_all, List.foldl_cons] at *
    exact ⟨this.1.trans h1, this.2⟩

theorem lastN_length {α : Type} (n : ℕ) (l : List α) (h : n ≤ l.length) :
    (lastN n l).length = n := by
  simp [lastN]
  omega

/-- Newest-N property of the push: the trailing `n` elements of a pushed buffer
are the trailing `n - 1` previous elements followed by the pushed value. -/
theorem lastN_ring_push {α : Type} (n : ℕ) (l : List α) (v : α)
    (hn : n ≤ l.length) (hpos : 0 < n) :
    lastN n (ring_push l v) = lastN (n - 1) l ++ [v] := by
  cases l with
  | nil => simp at hn; omega
  | cons x xs =>
    simp only [List.length_cons] at hn
    simp only [lastN, ring_push]
    simp only [List.length_append, List.length_drop, List.length_cons, List.length_singleton]
    rw [List.drop_append_of_le_length (by simp; omega)]
    congr 1
    simp only [List.drop_one, List.tail_cons]
    have hamt : xs.length + 1 - (n - 1) = (xs.length - (n - 1)) + 1 := by omega
    rw [hamt, List.drop_succ_cons]
    congr 1
    simp only [List.length_nil]
    omega

theorem lastN_zero {α : Type} (l : List α) : lastN 0 l = [] := by
  simp [lastN]

theorem lastN_append_singleton {α : Type} (N : ℕ) (vs : List α) (v : α) (h : 0 < N) :
    lastN N (vs ++ [v]) = lastN (N - 1) vs ++ [v] := by
  simp only [lastN, List.length_append, List.length_singleton]
  rw [List.drop_append_of_le_length (by omega)]
  congr 2
  omega

/-- FIFO/newest-N property: after pushing the values `vs` one by one into a
nonempty buffer, the trailing `N` entries (for `N` at most the capacity and at
most the number of pushes) are exactly the last `N` pushed values. -/
theorem lastN_push_all {α : Type} (vs : List α) (l : List α) (N : ℕ) (hl : l ≠ [])
    (hN : N ≤ vs.length) (hNl : N ≤ l.length) :
    lastN N (push_all l vs) = lastN N vs := by
  induction vs using List.reverseRecOn generalizing N with
  | nil =>
    simp only [List.length_nil, Nat.le_zero] at hN
    subst hN
    simp [lastN_zero]
  | append_singleton vs v ih =>
    rcases Nat.eq_zero_or_pos N with h0 | hpos
    · subst h0; simp [lastN_zero]
    · have hP := length_push_all l vs hl
      have hfold : push_all l (vs ++ [v]) = ring_push (push_all l vs) v := by
        simp [push_all]
      simp only [List.length_append, List.length_singleton] at hN
      rw [hfold, lastN_ring_push N (push_all l vs) v (by omega) hpos,
        lastN_append_singleton N vs v hpos, ih (N - 1) (by omega) (by omega)]

/- ~~~~~~~~~~ numpy np.unwrap (default discont = pi, period = 2*pi) ~~~~~~~~~~
numpy computes dd = diff(p); ddmod = mod(dd + pi, 2*pi) - pi; rewrites
ddmod = -pi to +pi where dd > 0; ph_correct = ddmod - dd zeroed where
|dd| < pi; and returns p with cumsum(ph_correct) added to p[1:].  Hence the
output is a scan: out[0] = p[0], out[i+1] = out[i] + unwrap_diff (p[i+1]-p[i]).
The float constant pi is embedded as a positive rational parameter `p`; no
claim depends on its value, only on its positivity. -/

/-- The increment the unwrapped output makes for an input difference `d`:
`d` itself if `|d| < p` (correction zeroed), otherwise `d` reduced to the
interval `[-p, p]` modulo `2 p` (with the `-p`-to-`p` boundary rewrite
applied when `d > 0`). -/
def unwrap_diff (p d : ℚ) : ℚ :=
  if |d| < p then d
  else if (d + p) - 2 * p * (⌊(d + p) / (2 * p)⌋ : ℚ) - p = -p ∧ 0 < d then p
  else (d + p) - 2 * p * (⌊(d + p) / (2 * p)⌋ : ℚ) - p

def np_unwrap_go (p : ℚ) : ℚ → ℚ → List ℚ → List ℚ
  | _, _, [] => []
  | prevOrig, prevOut, y :: ys =>
      (prevOut + unwrap_diff p (y - prevOrig)) ::
        np_unwrap_go p y (prevOut + unwrap_diff p (y - prevOrig)) ys

/-- numpy `np.unwrap` with period `2 p` and discontinuity threshold `p`. -/
def np_unwrap (p : ℚ) : List ℚ → List ℚ
  | [] => []
  | x :: xs => x :: np_unwrap_go p x x xs

/-- Adjacent differences bounded by `p` in absolute value. -/
def diffBounded (p : ℚ) : ℚ → ℚ → Prop := fun a b => |b - a| ≤ p

instance (p a b : ℚ) : Decidable (diffBounded p a b) := by
  unfold diffBounded
  infer_instance

theorem unwrap_diff_eq_self (p d : ℚ) (hp : 0 < p) (h : |d| ≤ p) :
    unwrap_diff p d = d := by
  unfold unwrap_diff
  by_cases hlt : |d| < p
  · simp [hlt]
  · have habs : |d| = p := le_antisymm h (not_lt.mp hlt)
    simp only [hlt, if_false]
    rcases (abs_eq (le_of_lt hp)).mp habs with hd | hd
    · have h2p : (2 : ℚ) * p ≠ 0 := by positivity
      have hq : (d + p) / (2 * p) = 1 := by rw [hd]; field_simp; ring
      simp only [hq, Int.floor_one, Int.cast_one]
      have hcond : d + p - 2 * p * 1 - p = -p ∧ 0 < d := by
        refine ⟨by rw [hd]; ring, by rw [hd]; exact hp⟩
      rw [if_pos hcond, hd]
    · have hq : (d + p) / (2 * p) = 0 := by
        rw [hd, neg_add_cancel, zero_div]
      simp only [hq, Int.floor_zero, Int.cast_zero]
      have hcond : ¬ (d + p - 2 * p * 0 - p = -p ∧ 0 < d) := by
        intro hc
        have h2 := hc.2
        rw [hd] at h2
        linarith
      rw [if_neg hcond, hd]
      ring

theorem abs_unwrap_diff_le (p d : ℚ) (hp : 0 < p) : |unwrap_diff p d| ≤ p := by
  unfold unwrap_diff
  by_cases hlt : |d| < p
  · simp only [hlt, if_true]
    exact le_of_lt hlt
  · simp only [hlt, if_false]
    have h2p : (0 : ℚ) < 2 * p := by linarith
    have hfr : (d + p) - 2 * p * (⌊(d + p) / (2 * p)⌋ : ℚ) - p
        = 2 * p * Int.fract ((d + p) / (2 * p)) - p := by
      have hd : d + p = 2 * p * ((d + p) / (2 * p)) := by field_simp
      rw [Int.fract]
      nlinarith [hd]
    have hfr0 : 0 ≤ Int.fract ((d + p) / (2 * p)) := Int.fract_nonneg _
    have hfr1 : Int.fract ((d + p) / (2 * p)) < 1 := Int.fract_lt_one _
    have hlo : -p ≤ (d + p) - 2 * p * (⌊(d + p) / (2 * p)⌋ : ℚ) - p := by
      rw [hfr]; nlinarith
    have hhi : (d + p) - 2 * p * (⌊(d + p) / (2 * p)⌋ : ℚ) - p < p := by
      rw [hfr]; nlinarith
    by_cases hc : (d + p) - 2 * p * (⌊(d + p) / (2 * p)⌋ : ℚ) - p = -p ∧ 0 < d
    · rw [if_pos hc, abs_of_pos hp]
    · rw [if_neg hc, abs_le]
      exact ⟨hlo, le_of_lt hhi⟩

theorem getLastD_cons_cons {α : Type} (a y : α) (ys : List α) (d : α) :
    (a :: y :: ys).getLastD d = (y :: ys).getLastD d := by
  simp [List.getLastD_cons]

/-- Stability with a final fresh sample: if all adjacent differences of
`a :: l` are bounded by `p`, then unwrapping `a :: l ++ [w]` (scanning from
`a` with output starting at `a`) leaves `l` unchanged and only corrects the
final element `w`. -/
theorem np_unwrap_go_append (p : ℚ) (hp : 0 < p) (a : ℚ) (l : List ℚ) (w : ℚ)
    (h : List.Chain' (diffBounded p) (a :: l)) :
    np_unwrap_go p a a (l ++ [w]) =
      l ++ [(a :: l).getLastD 0 + unwrap_diff p (w - (a :: l).getLastD 0)] := by
  induction l generalizing a with
  | nil => simp [np_unwrap_go]
  | cons y ys ih =>
    have h1 : diffBounded p a y ∧ List.Chain' (diffBounded p) (y :: ys) :=
      List.chain'_cons.mp h
    have hdiff : unwrap_diff p (y - a) = y - a :=
      unwrap_diff_eq_self p (y - a) hp h1.1
    simp only [List.cons_append, np_unwrap_go, hdiff, List.append_eq]
    have hay : a + (y - a) = y := by ring
    rw [hay, ih y h1.2, getLastD_cons_cons]

theorem np_unwrap_append (p : ℚ) (hp : 0 < p) (l : List ℚ) (w : ℚ) (hl : l ≠ [])
    (h : List.Chain' (diffBounded p) l) :
    np_unwrap p (l ++ [w]) = l ++ [l.getLastD 0 + unwrap_diff p (w - l.getLastD 0)] := by
  cases l with
  | nil => exact absurd rfl hl
  | cons x xs =>
    simp only [List.cons_append, np_unwrap]
    rw [np_unwrap_go_append p hp x xs w h]

theorem getLastD_drop {α : Type} (l : List α) (n : ℕ) (d : α) (h : l.drop n ≠ []) :
    (l.drop n).getLastD d = l.getLastD d := by
  rw [List.getLastD_eq_getLast?, List.getLastD_eq_getLast?]
  conv_rhs => rw [← List.take_append_drop n l]
  rw [List.getLast?_append_of_ne_nil _ h]

/- ~~~~~~~~~~ process_data slow-time buffer updates (lines 175-271) ~~~~~~~~~~
On every processed cycle the loop counter equals 1 at lines 210-240: it is
incremented exactly once per cycle at line 206 and reset to 0 at line 331 of
the same cycle (the C1 state machine below proves the reset).  Hence every
`np.roll(buf, -counter)` / `buf[-counter:] = ...` pair below is a roll by one
followed by a single trailing write. -/

/-- Lines 175-176: `radar_time_stamp` is rolled and its last slot receives
`radar_time_stamp[-2] + time_passed` (the previous newest timestamp plus the
elapsed time). -/
def radar_time_stamp_update (ts : List ℚ) (time_passed : ℚ) : List ℚ :=
  set_last (np_roll_one ts) ((np_roll_one ts).dropLast.getLastD 0 + time_passed)

/-- Lines 187 and 199/201: `slow_time_buffer_data` is rolled and its last slot
receives the complex sample extracted from the range profile (modelled as a
real/imaginary pair). -/
def slow_time_buffer_update (b : List (ℚ × ℚ)) (sample : ℚ × ℚ) : List (ℚ × ℚ) :=
  set_last (np_roll_one b) sample

/-- Lines 188 and 204: `I_Q_envelop` is rolled and its last slot receives the
magnitude of the new slow-time sample. -/
def I_Q_envelop_update (b : List ℚ) (env : ℚ) : List ℚ :=
  set_last (np_roll_one b) env

/-- Lines 193-195: `range_profile_peak_indices` is rolled and its last slot
receives `np.argmax(range_fft_abs[start:stop]) + start`. -/
def range_profile_peak_indices_update (idxs : List ℚ) (range_fft_abs : List ℚ)
    (start_index_range stop_index_range : ℕ) : List ℚ :=
  set_last (np_roll_one idxs)
    (((argmax_idx (pySlice range_fft_abs start_index_range stop_index_range)
        + start_index_range : ℕ) : ℚ))

/-- Line 197: the tracked bin is
`int(np.mean(range_profile_peak_indices[-2 * vital_signs_sample_rate:]))`. -/
def range_profile_peak_index_of (idxs : List ℚ) : ℤ :=
  pyInt (listMean (lastN (2 * vital_signs_sample_rate) idxs))

/-- Lines 210-212 (with counter = 1): `wrapped_phase_plot` is rolled and its
last slot receives the new sample's `np.angle`. -/
def wrapped_phase_update (b : List ℚ) (wphase : ℚ) : List ℚ :=
  set_last (np_roll_one b) wphase

/-- Lines 224-234 / 236-240 (with counter = 1): `filtered_breathing_plot` and
`filtered_heart_plot` are rolled and their last slot receives the last sample
of the corresponding filter chain's output over the trailing window (breathing:
lfilter + savgol + uniform_filter1d; heart: hpfilter + lfilter).  Only that
final sample reaches the buffer (`buf[-counter:] = filtered[-counter:]`). -/
def filtered_plot_update (b : List ℚ) (filtered_last : ℚ) : List ℚ :=
  set_last (np_roll_one b) filtered_last

/-- Trailing-window write-back shape of lines 214-218: after the roll and the
trailing write of the wrapped phase, `np.unwrap` is recomputed over the last
`W` entries and written back in place. -/
def unwrap_writeback (p : ℚ) (W : ℕ) (b : List ℚ) (w : ℚ) : List ℚ :=
  (ring_push b w).take ((ring_push b w).length - W) ++ np_unwrap p (lastN W (ring_push b w))

/-- Lines 214-218: `unwrapped_phase_plot` is rolled, its last slot receives
`wrapped_phase_plot[-1]`, and `np.unwrap` of the trailing
`processing_data_size` window is written back over that window. -/
def unwrapped_phase_update (p : ℚ) (b : List ℚ) (wphase : ℚ) : List ℚ :=
  (set_last (np_roll_one b) wphase).take
      ((set_last (np_roll_one b) wphase).length - processing_data_size)
    ++ np_unwrap p (lastN processing_data_size (set_last (np_roll_one b) wphase))

/-- Helper: the rolled-and-written buffer of `unwrapped_phase_update` is
exactly `ring_push b wphase`, so the update is `unwrap_writeback` on `b`. -/
theorem unwrapped_phase_update_eq (p : ℚ) (b : List ℚ) (wphase : ℚ) (h : b ≠ []) :
    unwrapped_phase_update p b wphase = unwrap_writeback p processing_data_size b wphase := by
  unfold unwrapped_phase_update unwrap_writeback
  rw [set_last_np_roll_one b wphase h]

/-- Only the newest element of the recompute window is actually changed by the
write-back: under the invariant that the adjacent differences of the trailing
`W` window are bounded by `p`, the whole update collapses to a single push of
the corrected newest value, and the invariant is preserved. -/
theorem unwrap_writeback_eq_ring_push (p : ℚ) (hp : 0 < p) (W : ℕ) (b : List ℚ) (w : ℚ)
    (hW2 : 2 ≤ W) (hWcap : W + 1 ≤ b.length)
    (hchain : List.Chain' (diffBounded p) (lastN W b)) :
    unwrap_writeback p W b w
        = ring_push b (b.getLastD 0 + unwrap_diff p (w - b.getLastD 0)) ∧
      List.Chain' (diffBounded p)
        (lastN W (ring_push b (b.getLastD 0 + unwrap_diff p (w - b.getLastD 0)))) := by
  have hbne : b ≠ [] := by
    intro hb
    subst hb
    simp at hWcap
  have hdrop1len : (b.drop 1).length = b.length - 1 := by simp
  -- the recompute window after the roll-and-write, generic in the written value
  have hwin : ∀ v : ℚ, lastN W (ring_push b v) = b.drop (b.length - W + 1) ++ [v] := by
    intro v
    have hl := length_ring_push b v hbne
    unfold lastN
    rw [hl]
    unfold ring_push
    rw [List.drop_append_of_le_length (by rw [hdrop1len]; omega), List.drop_drop]
    have hamt : 1 + (b.length - W) = b.length - W + 1 := by omega
    rw [hamt]
  -- differences inside the shifted window stay bounded
  have hchain1 : List.Chain' (diffBounded p) (b.drop (b.length - W + 1)) := by
    have h1 : b.drop (b.length - W + 1) = (lastN W b).drop 1 := by
      unfold lastN
      rw [List.drop_drop]
    rw [h1]
    exact hchain.drop 1
  have hdropne : b.drop (b.length - W + 1) ≠ [] := by
    have hlen3 : (b.drop (b.length - W + 1)).length = b.length - (b.length - W + 1) := by simp
    intro hnil
    rw [hnil] at hlen3
    simp at hlen3
    omega
  have hlastd : (b.drop (b.length - W + 1)).getLastD 0 = b.getLastD 0 :=
    getLastD_drop b _ 0 hdropne
  have hunw : np_unwrap p (b.drop (b.length - W + 1) ++ [w])
      = b.drop (b.length - W + 1)
          ++ [b.getLastD 0 + unwrap_diff p (w - b.getLastD 0)] := by
    rw [np_unwrap_append p hp _ w hdropne hchain1, hlastd]
  have hmain : unwrap_writeback p W b w
      = ring_push b (b.getLastD 0 + unwrap_diff p (w - b.getLastD 0)) := by
    unfold unwrap_writeback
    rw [length_ring_push b w hbne, hwin w, hunw]
    conv_lhs => rw [ring_push]
    rw [List.take_append_of_le_length (by rw [hdrop1len]; omega), ← List.append_assoc]
    have hsplit : (b.drop 1).take (b.length - W) ++ b.drop (b.length - W + 1) = b.drop 1 := by
      have h2 : b.drop (b.length - W + 1) = (b.drop 1).drop (b.length - W) := by
        rw [List.drop_drop]
        have hamt : b.length - W + 1 = 1 + (b.length - W) := by omega
        rw [hamt]
      rw [h2, List.take_append_drop]
    rw [hsplit]
    rfl
  refine ⟨hmain, ?_⟩
  rw [hwin _]
  apply List.chain'_append.mpr
  refine ⟨hchain1, List.chain'_singleton _, ?_⟩
  intro x hx y hy
  have hgl : (b.drop (b.length - W + 1)).getLast? = some x := Option.mem_def.mp hx
  have hx2 : (b.drop (b.length - W + 1)).getLastD 0 = x := by
    rw [List.getLastD_eq_getLast?, hgl]
    rfl
  have hxL : x = b.getLastD 0 := by rw [← hx2, hlastd]
  have hyv : y = b.getLastD 0 + unwrap_diff p (w - b.getLastD 0) := by
    simp only [List.head?_cons, Option.mem_def, Option.some_inj] at hy
    exact hy.symm
  unfold diffBounded
  rw [hxL, hyv]
  have harith : b.getLastD 0 + unwrap_diff p (w - b.getLastD 0) - b.getLastD 0
      = unwrap_diff p (w - b.getLastD 0) := by ring
  rw [harith]
  exact abs_unwrap_diff_le p _ hp

theorem np_roll_one_dropLast {α : Type} (l : List α) (h : l ≠ []) :
    (np_roll_one l).dropLast = l.drop 1 := by
  cases l with
  | nil => exact absurd rfl h
  | cons x xs => simp [np_roll_one, List.dropLast_concat]

/-- The roll-then-copy idiom `buf = np.roll(buf, -1); buf[-1] = buf[-2]` holds
the previous newest value: it equals a push of the old newest value. -/
theorem np_roll_hold {α : Type} (l : List α) (d : α) (h : 2 ≤ l.length) :
    set_last (np_roll_one l) ((np_roll_one l).dropLast.getLastD d)
      = ring_push l (l.getLastD d) := by
  have hne : l ≠ [] := by
    intro he
    subst he
    simp at h
  rw [np_roll_one_dropLast l hne, set_last_np_roll_one l _ hne]
  have hd1 : l.drop 1 ≠ [] := by
    have hl : (l.drop 1).length = l.length - 1 := by simp
    intro he
    rw [he] at hl
    simp at hl
    omega
  rw [getLastD_drop l 1 d hd1]

/- ~~~~~~~~~~ scipy.signal.find_peaks (local maxima + distance selection) ~~~~~~~~~~
scipy's `_local_maxima_1d` scans i = 1 .. n-2: a sample strictly greater than
its left neighbour opens a candidate, the scan skips over a flat plateau of
equal samples, and if the sample that ends the plateau is strictly smaller the
plateau midpoint is recorded as a peak (the scan then resumes after the
plateau).  `_select_by_peak_distance` visits peaks by decreasing priority
(sample height) and discards every other surviving peak closer than
`distance`.  The scans are written with an explicit fuel argument, always
instantiated with the list length, which bounds the number of iterations. -/

def plateau_scan (x : List ℚ) (v : ℚ) (iMax : ℕ) : ℕ → ℕ → ℕ
  | 0, i => i
  | fuel + 1, i => if i < iMax ∧ x.getD i 0 = v then plateau_scan x v iMax fuel (i + 1) else i

def local_max_go (x : List ℚ) (iMax : ℕ) : ℕ → ℕ → List ℕ
  | 0, _ => []
  | fuel + 1, i =>
    if i < iMax then
      if x.getD (i - 1) 0 < x.getD i 0 then
        if x.getD (plateau_scan x (x.getD i 0) iMax x.length (i + 1)) 0 < x.getD i 0 then
          (i + (plateau_scan x (x.getD i 0) iMax x.length (i + 1) - 1)) / 2 ::
            local_max_go x iMax fuel (plateau_scan x (x.getD i 0) iMax x.length (i + 1) + 1)
        else local_max_go x iMax fuel (i + 1)
      else local_max_go x iMax fuel (i + 1)
    else []

/-- scipy `_local_maxima_1d`: indices of the (plateau-midpoint) local maxima. -/
def local_maxima_1d (x : List ℚ) : List ℕ := local_max_go x (x.length - 1) x.length 1

/-- Stable insertion keeping earlier-inserted equal keys first (used to model
the argsort by priority that orders the distance-selection pass). -/
def insert_by_key (key : ℕ → ℚ) (a : ℕ) : List ℕ → List ℕ
  | [] => [a]
  | b :: l => if key b ≤ key a then b :: insert_by_key key a l else a :: b :: l

def argsort_by_key (key : ℕ → ℚ) (n : ℕ) : List ℕ :=
  (List.range n).foldl (fun acc i => insert_by_key key i acc) []

def sbpd_go (peaks : List ℕ) (dist : ℕ) : List ℕ → (ℕ → Bool) → (ℕ → Bool)
  | [], keep => keep
  | j :: rest, keep =>
    if keep j then
      sbpd_go peaks dist rest
        (fun k =>
          if k ≠ j ∧ max (peaks.getD j 0) (peaks.getD k 0)
              - min (peaks.getD j 0) (peaks.getD k 0) < dist
          then false else keep k)
    else sbpd_go peaks dist rest keep

/-- scipy `_select_by_peak_distance`. -/
def select_by_peak_distance (peaks : List ℕ) (priority : List ℚ) (dist : ℕ) : List ℕ :=
  ((peaks.enum.filter (fun pr =>
      sbpd_go peaks dist ((argsort_by_key (fun i => priority.getD i 0) peaks.length).reverse)
        (fun _ => true) pr.1)).map (fun pr => pr.2))

/-- scipy `find_peaks(x, distance=dist)`. -/
def find_peaks (x : List ℚ) (dist : ℕ) : List ℕ :=
  select_by_peak_distance (local_maxima_1d x)
    ((local_maxima_1d x).map (fun i => x.getD i 0)) dist

/-- Lines 140-151: `find_signal_peaks` searches the band
`fft_windowed_signal[index_start:index_end]`, converts the frequency distance
to a bin distance (floored at one bin), and returns the absolute index of the
highest-magnitude peak, or 0 when no peak is found. -/
def find_signal_peaks (fft_windowed_signal : List ℚ) (index_start index_end : ℕ)
    (distance : ℚ) : ℕ :=
  if (find_peaks (pySlice fft_windowed_signal index_start index_end)
        (pyInt (max 1 (distance * (fft_size_vital_signs : ℚ)
          / (vital_signs_sample_rate : ℚ)))).toNat).length > 0 then
    (find_peaks (pySlice fft_windowed_signal index_start index_end)
        (pyInt (max 1 (distance * (fft_size_vital_signs : ℚ)
          / (vital_signs_sample_rate : ℚ)))).toNat).getD
      (argmax_idx ((find_peaks (pySlice fft_windowed_signal index_start index_end)
          (pyInt (max 1 (distance * (fft_size_vital_signs : ℚ)
            / (vital_signs_sample_rate : ℚ)))).toNat).map
        (fun i => (pySlice fft_windowed_signal index_start index_end).getD i 0))) 0
      + index_start
  else 0

/-- Lines 259-264 (breathing) and 266-271 (heart): the rate-estimation index
buffer is rolled, its newest slot first receives the previous newest value
(`buf[-1] = buf[-2]`), and is overwritten by the peak index only when the peak
search returned nonzero. -/
def rate_index_update (buf : List ℚ) (fft_ws : List ℚ) (index_start index_end : ℕ)
    (distance : ℚ) : List ℚ :=
  if find_signal_peaks fft_ws index_start index_end distance ≠ 0 then
    set_last (set_last (np_roll_one buf) ((np_roll_one buf).dropLast.getLastD 0))
      ((find_signal_peaks fft_ws index_start index_end distance : ℕ) : ℚ)
  else set_last (np_roll_one buf) ((np_roll_one buf).dropLast.getLastD 0)

theorem find_signal_peaks_of_no_peak (fft_ws : List ℚ) (i0 i1 : ℕ) (d : ℚ)
    (h : find_peaks (pySlice fft_ws i0 i1)
        (pyInt (max 1 (d * (fft_size_vital_signs : ℚ)
          / (vital_signs_sample_rate : ℚ)))).toNat = []) :
    find_signal_peaks fft_ws i0 i1 d = 0 := by
  unfold find_signal_peaks
  rw [h]
  simp

theorem rate_index_update_no_peak (buf fft_ws : List ℚ) (i0 i1 : ℕ) (d : ℚ)
    (h0 : find_signal_peaks fft_ws i0 i1 d = 0) (hlen : 2 ≤ buf.length) :
    rate_index_update buf fft_ws i0 i1 d = ring_push buf (buf.getLastD 0) := by
  unfold rate_index_update
  rw [h0]
  simp only [ne_eq, not_true_eq_false, if_false]
  exact np_roll_hold buf 0 hlen

/-- C3: sample-and-hold of the rate-estimation index buffers.  For every cycle
in which the peak picker finds no peak in the searched band — and for every
run of `N` consecutive such cycles — `find_signal_peaks` returns the no-peak
code 0, so the newest entry of the index buffer equals the previous cycle's
newest entry and the held value stays constant at the last valid value for the
whole run (the buffer length is also preserved).  The band bounds `i0`, `i1`
and the bin distance `d` are arbitrary, so this covers the breathing estimator
(`index_start_breathing`, `index_end_breathing`) and the heart estimator
(`index_start_heart`, `index_end_heart`) alike. -/
theorem c3_sample_and_hold (buf : List ℚ) (ffts : List (List ℚ)) (i0 i1 : ℕ) (d : ℚ)
    (hlen : 2 ≤ buf.length)
    (hnopeak : ∀ f ∈ ffts, find_peaks (pySlice f i0 i1)
        (pyInt (max 1 (d * (fft_size_vital_signs : ℚ)
          / (vital_signs_sample_rate : ℚ)))).toNat = []) :
    (∀ f ∈ ffts, find_signal_peaks f i0 i1 d = 0) ∧
      (ffts.foldl (fun b f => rate_index_update b f i0 i1 d) buf).getLastD 0
        = buf.getLastD 0 ∧
      (ffts.foldl (fun b f => rate_index_update b f i0 i1 d) buf).length = buf.length := by
  induction ffts generalizing buf with
  | nil => exact ⟨by simp, rfl, rfl⟩
  | cons f fs ih =>
    have hf := hnopeak f (List.mem_cons_self f fs)
    have h0 : find_signal_peaks f i0 i1 d = 0 := find_signal_peaks_of_no_peak f i0 i1 d hf
    have hupd : rate_index_update buf f i0 i1 d = ring_push buf (buf.getLastD 0) :=
      rate_index_update_no_peak buf f i0 i1 d h0 hlen
    have hbne : buf ≠ [] := by
      intro he
      subst he
      simp at hlen
    have hlen2 : (rate_index_update buf f i0 i1 d).length = buf.length := by
      rw [hupd]
      exact length_ring_push buf _ hbne
    have ihres := ih (rate_index_update buf f i0 i1 d) (by omega)
      (fun g hg => hnopeak g (List.mem_cons_of_mem f hg))
    refine ⟨?_, ?_, ?_⟩
    · intro g hg
      rcases List.mem_cons.mp hg with hg1 | hg2
      · rw [hg1]; exact h0
      · exact ihres.1 g hg2
    · simp only [List.foldl_cons]
      rw [ihres.2.1, hupd, getLastD_ring_push]
    · simp only [List.foldl_cons]
      rw [ihres.2.2, hlen2]

/-- Witness for C3 at a concrete input: a strictly decreasing band has no
local maximum, so two consecutive no-peak cycles leave the newest index entry
at its previous value 7. -/
theorem c3_sample_and_hold_witness :
    (2 ≤ ([5, 7] : List ℚ).length) ∧
      ((([[3, 2, 1], [3, 2, 1]] : List (List ℚ)).foldl
          (fun b f => rate_index_update b f 0 3 peak_finding_distance) [5, 7]).getLastD 0
        = ([5, 7] : List ℚ).getLastD 0) :=
  ⟨by decide,
   (c3_sample_and_hold [5, 7] [[3, 2, 1], [3, 2, 1]] 0 3 peak_finding_distance
      (by decide) (by decide)).2.1⟩

/- ~~~~~~~~~~ C1: breath-cycle detector decimation (lines 167, 206, 276, 331) ~~~~~~~~~~ -/

def ENABLE_BREATHING_VISUALIZATION : Bool := true

/-- The transient inhalation/exhalation point lists (lines 313-328). -/
structure BreathCyclePoints where
  inhalation_points_x : List ℚ
  inhalation_points_y : List ℚ
  exhalation_points_x : List ℚ
  exhalation_points_y : List ℚ

/-- The `process_data` loop state restricted to what governs the breath-cycle
detector: the local `counter` (line 167) and the point lists. -/
structure ProcessLoopState where
  counter : ℕ
  points : BreathCyclePoints

/-- One successfully processed cycle of `process_data`, restricted to the
counter and the point lists.  `detect` stands for the entire detector body of
lines 277-328 (smoothing, median filtering, thresholding, peak finding and
list rebuilding); the dead-code theorem below holds for every such body.
Line 206 increments the counter, line 276 guards the detector with
`counter % 5 == 0 and ENABLE_BREATHING_VISUALIZATION`, and line 331
unconditionally resets the counter to 0 at the end of the same cycle. -/
def process_cycle_counter (detect : ℕ → BreathCyclePoints) (s : ProcessLoopState) :
    ProcessLoopState :=
  { counter := 0,
    points :=
      if (s.counter + 1) % 5 = 0 ∧ ENABLE_BREATHING_VISUALIZATION = true then
        detect (s.counter + 1)
      else s.points }

/-- One iteration of the `while True` loop (line 168): when the queue is empty
the cycle is skipped and the state is untouched (line 170); otherwise one
cycle runs. -/
def process_loop_step (s : ProcessLoopState) :
    Option (ℕ → BreathCyclePoints) → ProcessLoopState
  | none => s
  | some detect => process_cycle_counter detect s

/-- C1 (refuting the claim): the breath-cycle detector is dead code.  Because
line 331 resets `counter` to 0 at the end of every processed cycle, the guard
at line 276 always evaluates with `counter = 1`, so starting from the initial
state (`counter = 0`) no sequence of loop iterations — empty-queue skips or
processed frames, with arbitrary detector bodies — ever reruns the detector:
the inhalation/exhalation point lists keep their initial value forever,
instead of being recomputed on every 5th cycle as the claim states. -/
theorem c1_breath_cycle_detector_never_runs
    (steps : List (Option (ℕ → BreathCyclePoints))) (pts0 : BreathCyclePoints) :
    steps.foldl process_loop_step ⟨0, pts0⟩ = ⟨0, pts0⟩ := by
  induction steps with
  | nil => rfl
  | cons st sts ih =>
    cases st with
    | none =>
      simpa [process_loop_step] using ih
    | some detect =>
      have hstep : process_loop_step ⟨0, pts0⟩ (some detect) = ⟨0, pts0⟩ := by
        simp [process_loop_step, process_cycle_counter]
      simpa [hstep] using ih

/- ~~~~~~~~~~ Range-FFT front end (lines 119-138) ~~~~~~~~~~ -/

/-- scipy `signal.windows.blackmanharris(M)`: the symmetric 4-term
Blackman-Harris window. -/
noncomputable def blackmanharris (M : ℕ) (n : ℕ) : ℝ :=
  0.35875 - 0.48829 * Real.cos (2 * Real.pi * n / ((M : ℝ) - 1))
    + 0.14128 * Real.cos (4 * Real.pi * n / ((M : ℝ) - 1))
    - 0.01168 * Real.cos (6 * Real.pi * n / ((M : ℝ) - 1))

/-- numpy `np.fft.fft`: bin `k` of the forward DFT of the length-`N`
sequence `x`. -/
noncomputable def np_fft (x : ℕ → ℂ) (N : ℕ) (k : ℕ) : ℂ :=
  ∑ n in Finset.range N, x n * Complex.exp (-2 * Real.pi * Complex.I * k * n / N)

/-- A radar frame: one complex baseband value per antenna, chirp and sample
(indices beyond the declared shape are never read). -/
def RadarFrame : Type := ℕ → ℕ → ℕ → ℂ

/-- Line 127-128: subtract the per-chirp mean (DC removal) from a chirp row. -/
noncomputable def chirp_dc_removed (frame : RadarFrame) (ns : ℕ) (a c s : ℕ) : ℂ :=
  frame a c s - (∑ j in Finset.range ns, frame a c j) / (ns : ℂ)

/-- Lines 129-131: multiply the DC-removed row by the Blackman-Harris window
across range samples. -/
noncomputable def chirp_windowed (frame : RadarFrame) (ns : ℕ) (a c s : ℕ) : ℂ :=
  chirp_dc_removed frame ns a c s * ((blackmanharris ns s : ℝ) : ℂ)

/-- Line 132: zero-pad the windowed row to `fft_size_range_profile`. -/
noncomputable def chirp_zero_padded (frame : RadarFrame) (ns : ℕ) (a c s : ℕ) : ℂ :=
  if s < ns then chirp_windowed frame ns a c s else 0

/-- Lines 133-134: forward FFT of the padded row, scaled by `1/ns`, then the
kept first-half bins doubled. -/
noncomputable def chirp_range_fft (frame : RadarFrame) (ns : ℕ) (a c k : ℕ) : ℂ :=
  2 * (np_fft (chirp_zero_padded frame ns a c) fft_size_range_profile k / (ns : ℂ))

/-- Line 135: sum of the chirp FFTs within one antenna. -/
noncomputable def antenna_range_fft (frame : RadarFrame) (nc ns : ℕ) (a k : ℕ) : ℂ :=
  ∑ c in Finset.range nc, chirp_range_fft frame ns a c k

/-- Lines 123-137: the antenna loop accumulates the per-antenna sums into
`range_fft_antennas_buffer` and the result is divided by `num_rx_antennas`. -/
noncomputable def calc_range_fft_frame (frame : RadarFrame) (nc ns : ℕ) (k : ℕ) : ℂ :=
  ((List.range num_rx_antennas).foldl
      (fun acc a => antenna_range_fft frame nc ns a k + acc) 0) / (num_rx_antennas : ℂ)

/-- The returned range profile: the first `fft_size_range_profile / 2` bins. -/
noncomputable def calc_range_fft_output (frame : RadarFrame) (nc ns : ℕ) :
    Fin (fft_size_range_profile / 2) → ℂ :=
  fun k => calc_range_fft_frame frame nc ns k.val

/-- The specification's formula (§4.1): for each antenna, sum over chirps of
the first-half FFT bins of the DC-removed, Blackman-Harris-windowed,
zero-padded chirp row, scaled by `2 / ns`; then the arithmetic mean of the
per-antenna results. -/
noncomputable def spec_range_profile (frame : RadarFrame) (nc ns : ℕ) :
    Fin (fft_size_range_profile / 2) → ℂ :=
  fun k =>
    (∑ a in Finset.range num_rx_antennas,
        ∑ c in Finset.range nc,
          (2 / (ns : ℂ))
            * np_fft (chirp_zero_padded frame ns a c) fft_size_range_profile k.val)
      / (num_rx_antennas : ℂ)

/- ~~~~~~~~~~ C2: empty-queue behaviour of the loop (lines 119-138, 168-180) ~~~~~~~~~~ -/

/-- Lines 119-138: `calc_range_fft` dequeues and processes a frame when one is
queued and reports no output otherwise (`return None, None`, line 138). -/
noncomputable def calc_range_fft (nc ns : ℕ) (q : List RadarFrame) :
    Option (Fin (fft_size_range_profile / 2) → ℂ) × List RadarFrame :=
  match q with
  | [] => (none, q)
  | f :: rest => (some (calc_range_fft_output f nc ns), rest)

/-- Lines 168-331, one iteration of the processing loop over an abstract
downstream state `S`: when the queue is empty the cycle is skipped outright
(line 170); otherwise the timestamp buffer is rolled (lines 175-176), the
front end runs (line 178), and the rest of the cycle (`do_cycle`, lines
184-331) runs only when the front end produced an output (line 180). -/
noncomputable def process_data_iter {S : Type} (nc ns : ℕ) (roll_time_stamp : S → S)
    (do_cycle : S → (Fin (fft_size_range_profile / 2) → ℂ) → S)
    (q : List RadarFrame) (s : S) : List RadarFrame × S :=
  match q with
  | [] => (q, s)
  | f :: rest =>
    match calc_range_fft nc ns (f :: rest) with
    | (none, q1) => (q1, roll_time_stamp s)
    | (some prof, q1) => (q1, do_cycle (roll_time_stamp s) prof)

/-- C2: when the frame queue is empty the front end reports "no output"
(`none`), and the processing loop skips the whole cycle: the state — every
ring buffer included — is unchanged and no downstream stage runs, whatever
the downstream stages `roll_time_stamp` and `do_cycle` do. -/
theorem c2_empty_queue_skips_cycle {S : Type} (nc ns : ℕ) (roll_time_stamp : S → S)
    (do_cycle : S → (Fin (fft_size_range_profile / 2) → ℂ) → S) (s : S) :
    process_data_iter nc ns roll_time_stamp do_cycle [] s = ([], s) ∧
      (calc_range_fft nc ns []).1 = none := by
  constructor
  · rfl
  · rfl

/-- C5: for every dequeued frame (any chirp count `nc` and sample count `ns`),
the produced range profile equals the arithmetic mean over the receive
antennas of the per-antenna sum over chirps of the first
`fft_size_range_profile / 2` bins of the FFT of the DC-removed,
Blackman-Harris-windowed, zero-padded chirp row, scaled by
`2 / ns`. -/
theorem c5_range_fft_formula (frame : RadarFrame) (nc ns : ℕ)
    (k : Fin (fft_size_range_profile / 2)) :
    calc_range_fft_output frame nc ns k = spec_range_profile frame nc ns k := by
  have hA : ∀ a : ℕ, antenna_range_fft frame nc ns a k.val
      = ∑ c in Finset.range nc,
          (2 / (ns : ℂ))
            * np_fft (chirp_zero_padded frame ns a c) fft_size_range_profile k.val := by
    intro a
    unfold antenna_range_fft chirp_range_fft
    apply Finset.sum_congr rfl
    intro c _
    ring
  unfold calc_range_fft_output calc_range_fft_frame spec_range_profile
  have h3 : List.range num_rx_antennas = [0, 1, 2] := by decide
  have h3f : num_rx_antennas = 3 := by decide
  rw [h3, h3f]
  simp only [List.foldl_cons, List.foldl_nil]
  rw [hA 0, hA 1, hA 2]
  rw [Finset.sum_range_succ, Finset.sum_range_succ, Finset.sum_range_one]
  ring

/- ~~~~~~~~~~ C6: tracked range bin (lines 187-204) ~~~~~~~~~~ -/

theorem lastN_append_right {α : Type} (n : ℕ) (xs ys : List α) (h : ys.length = n) :
    lastN n (xs ++ ys) = ys := by
  unfold lastN
  have hamt : (xs ++ ys).length - n = xs.length := by
    simp [List.length_append, h]
  rw [hamt, List.drop_left]

theorem getLastD_set_last {α : Type} (l : List α) (v d : α) :
    (set_last l v).getLastD d = v := by
  simp [set_last, List.getLastD_concat]

theorem pyInt_eq_floor (q : ℚ) (h : 0 ≤ q) : pyInt q = ⌊q⌋ := by
  unfold pyInt
  rw [if_pos h]

theorem listMean_nonneg (l : List ℚ) (h : ∀ x ∈ l, 0 ≤ x) : 0 ≤ listMean l := by
  unfold listMean
  apply div_nonneg (List.sum_nonneg h)
  positivity

theorem lastN_subset {α : Type} (n : ℕ) (l : List α) : lastN n l ⊆ l := by
  unfold lastN
  exact List.drop_subset _ _

theorem mem_set_last_np_roll_one {α : Type} (l : List α) (v x : α)
    (hx : x ∈ set_last (np_roll_one l) v) : x ∈ l ∨ x = v := by
  unfold set_last np_roll_one at hx
  rcases List.mem_append.mp hx with h1 | h2
  · left
    have hsub : ((l.drop 1 ++ l.take 1).dropLast) ⊆ l.drop 1 ++ l.take 1 :=
      List.dropLast_subset _
    rcases List.mem_append.mp (hsub h1) with hd | ht
    · exact List.drop_subset _ _ hd
    · exact List.take_subset _ _ ht
  · right
    simpa using h2

/-- C6 counterexample: a peak-index buffer whose trailing 40 entries are
thirty 10s followed by ten 13s has mean 10.75; the code's `int()` truncation
yields tracked bin 10, while the claimed rounded mean is 11. -/
theorem c6_counterexample :
    range_profile_peak_index_of
        (List.replicate 1960 (0 : ℚ) ++ (List.replicate 30 10 ++ List.replicate 10 13))
      ≠ round (listMean (lastN (2 * vital_signs_sample_rate)
          (List.replicate 1960 (0 : ℚ) ++ (List.replicate 30 10 ++ List.replicate 10 13)))) := by
  have hlast : lastN (2 * vital_signs_sample_rate)
      (List.replicate 1960 (0 : ℚ) ++ (List.replicate 30 10 ++ List.replicate 10 13))
      = List.replicate 30 (10 : ℚ) ++ List.replicate 10 13 := by
    apply lastN_append_right
    decide
  unfold range_profile_peak_index_of
  rw [hlast]
  have hmean : listMean (List.replicate 30 (10 : ℚ) ++ List.replicate 10 13) = 43 / 4 := by
    unfold listMean
    rw [List.sum_append, List.sum_replicate, List.sum_replicate]
    norm_num
  rw [hmean, pyInt_eq_floor _ (by norm_num), round_eq]
  norm_num

/-- C6 amended: the tracked range bin produced by the per-cycle peak-tracking
step equals the floor (Python `int()` truncation, not rounding) of the mean of
the last `2 * vital_signs_sample_rate` entries of the updated peak-index
buffer. -/
theorem c6_tracked_bin_is_floor_of_mean (idxs range_fft_abs : List ℚ)
    (start_index_range stop_index_range : ℕ) (hnonneg : ∀ x ∈ idxs, 0 ≤ x) :
    range_profile_peak_index_of
        (range_profile_peak_indices_update idxs range_fft_abs start_index_range stop_index_range)
      = ⌊listMean (lastN (2 * vital_signs_sample_rate)
          (range_profile_peak_indices_update idxs range_fft_abs
            start_index_range stop_index_range))⌋ := by
  unfold range_profile_peak_index_of
  apply pyInt_eq_floor
  apply listMean_nonneg
  intro x hx
  have hx2 := lastN_subset _ _ hx
  unfold range_profile_peak_indices_update at hx2
  rcases mem_set_last_np_roll_one _ _ _ hx2 with hin | heq
  · exact hnonneg x hin
  · rw [heq]
    positivity

/-- Witness for the amended C6 at a concrete input. -/
theorem c6_tracked_bin_witness :
    (∀ x ∈ ([1, 2] : List ℚ), 0 ≤ x) ∧
      range_profile_peak_index_of (range_profile_peak_indices_update [1, 2] [] 0 0)
        = ⌊listMean (lastN (2 * vital_signs_sample_rate)
            (range_profile_peak_indices_update [1, 2] [] 0 0))⌋ :=
  ⟨by decide, c6_tracked_bin_is_floor_of_mean [1, 2] [] 0 0 (by decide)⟩

/- ~~~~~~~~~~ C7: displayed rate conversion (lines 381-397, 892-894) ~~~~~~~~~~ -/

theorem getD_replicate_of_lt {α : Type} (n m : ℕ) (a d : α) (h : m < n) :
    (List.replicate n a).getD m d = a := by
  rw [List.getD_eq_getD_get?, List.get?_eq_getElem?, List.getElem?_replicate_of_lt h]
  rfl

/-- Lines 892-894: `x_axis_vital_signs_spectrum = np.linspace(-rate/2, rate/2,
fft_size_vital_signs)`; entry `i` is `-rate/2 + i * rate/(nfft - 1)` (numpy's
linspace step is `(stop - start)/(num - 1)`, not `rate/nfft`). -/
def x_axis_vital_signs_spectrum (i : ℤ) : ℚ :=
  -(vital_signs_sample_rate : ℚ) / 2
    + (i : ℚ) * ((vital_signs_sample_rate : ℚ) / ((fft_size_vital_signs : ℚ) - 1))

/-- Lines 385-388 (and 393-396): the emitted estimation value
`round(x_axis_vital_signs_spectrum[round(nfft/2 + np.mean(idx[est_index:]))] * 60) - 2`. -/
def estimation_rate_value (est_index : ℕ) (idx : List ℚ) : ℚ :=
  ((pyRound (x_axis_vital_signs_spectrum
      (pyRound ((fft_size_vital_signs : ℚ) / 2 + listMean (idx.drop est_index))) * 60) : ℤ) : ℚ)
    - 2

/-- Lines 383-389 (breathing) and 391-397 (heart): when the gate entry
`idx[est_index] > 0` holds, the estimation-value buffer is rolled and its
newest slot receives the emitted value; otherwise it is left unchanged. -/
def estimation_value_update (est_index : ℕ) (vals idx : List ℚ) : List ℚ :=
  if 0 < idx.getD est_index 0 then
    set_last (np_roll_one vals) (estimation_rate_value est_index idx)
  else vals

/-- The claim's conversion: the mean peak-bin index over the trailing
`estimation_time * estimation_rate` samples, converted via
`binIndex * rate / nfft * 60`, minus 2. -/
def claim_rate_value (idx : List ℚ) : ℚ :=
  listMean (lastN (estimation_time * estimation_rate) idx) * (vital_signs_sample_rate : ℚ)
    / (fft_size_vital_signs : ℚ) * 60 - 2

/-- C7 counterexample: with the index buffer constant at bin 41 the code emits
`round(x_axis[round(800 + 41)] * 60) - 2 = round(16600/533) - 2 = 29`, while
the claimed conversion `41 * 20 / 1600 * 60 - 2 = 28.75` differs (the code
uses the linspace axis with step `rate/(nfft-1)` and rounds twice). -/
theorem c7_counterexample :
    0 < (List.replicate 2000 (41 : ℚ)).getD estimation_index_breathing 0 ∧
      (estimation_value_update estimation_index_breathing (List.replicate 2000 (0 : ℚ))
          (List.replicate 2000 (41 : ℚ))).getLastD 0
        ≠ claim_rate_value (List.replicate 2000 (41 : ℚ)) := by
  have hei : estimation_index_breathing = 1900 := by decide
  have hgate : 0 < (List.replicate 2000 (41 : ℚ)).getD estimation_index_breathing 0 := by
    rw [hei, getD_replicate_of_lt 2000 1900 (41 : ℚ) 0 (by norm_num)]
    norm_num
  refine ⟨hgate, ?_⟩
  have hdrop : (List.replicate 2000 (41 : ℚ)).drop estimation_index_breathing
      = List.replicate 100 (41 : ℚ) := by
    rw [hei, List.drop_replicate]
  have hmean : listMean (List.replicate 100 (41 : ℚ)) = 41 := by
    unfold listMean
    rw [List.sum_replicate]
    norm_num
  have hcast : ((fft_size_vital_signs : ℕ) : ℚ) = 1600 := by
    norm_num [fft_size_vital_signs, processing_data_size, processing_window_time,
      vital_signs_sample_rate, frame_rate]
  have hlhs : (estimation_value_update estimation_index_breathing
      (List.replicate 2000 (0 : ℚ)) (List.replicate 2000 (41 : ℚ))).getLastD 0 = 29 := by
    unfold estimation_value_update
    rw [if_pos hgate, getLastD_set_last]
    unfold estimation_rate_value
    rw [hdrop, hmean, hcast]
    have hin : pyRound ((1600 : ℚ) / 2 + 41) = 841 := by norm_num [pyRound]
    rw [hin]
    have hx : x_axis_vital_signs_spectrum 841 * 60 = 16600 / 533 := by
      unfold x_axis_vital_signs_spectrum
      rw [hcast]
      norm_num [vital_signs_sample_rate, frame_rate]
    rw [hx]
    have hpr : pyRound ((16600 : ℚ) / 533) = 31 := by norm_num [pyRound]
    rw [hpr]
    norm_num
  rw [hlhs]
  have hlast : lastN (estimation_time * estimation_rate) (List.replicate 2000 (41 : ℚ))
      = List.replicate 100 (41 : ℚ) := by
    unfold lastN
    rw [List.length_replicate, List.drop_replicate]
    congr 1
  have hrhs : claim_rate_value (List.replicate 2000 (41 : ℚ)) = 115 / 4 := by
    unfold claim_rate_value
    rw [hlast, hmean, hcast]
    norm_num [vital_signs_sample_rate, frame_rate]
  rw [hrhs]
  norm_num

/-- C7 amended: whenever a rate estimate is emitted (the gate entry of the
index buffer at the estimation index is positive), the newest entry of the
estimation-value buffer equals `round((-rate/2 + j * rate/(nfft-1)) * 60) - 2`
with `j = round(nfft/2 + mean(idx[est_index:]))`, where `round` is Python's
half-even rounding — i.e. the mean index is first rounded to a whole bin,
mapped through the `linspace(-rate/2, rate/2, nfft)` axis (step
`rate/(nfft-1)`, not `rate/nfft`), scaled to per-minute units, rounded
again, and offset by -2.  This covers the breathing series
(`est_index = estimation_index_breathing`) and the heart series
(`est_index = estimation_index_heart`) alike. -/
theorem c7_amended_rate_value (est_index : ℕ) (vals idx : List ℚ)
    (hgate : 0 < idx.getD est_index 0) :
    (estimation_value_update est_index vals idx).getLastD 0
      = ((pyRound ((-(vital_signs_sample_rate : ℚ) / 2
            + (pyRound ((fft_size_vital_signs : ℚ) / 2 + listMean (idx.drop est_index)) : ℚ)
              * ((vital_signs_sample_rate : ℚ) / ((fft_size_vital_signs : ℚ) - 1))) * 60) : ℤ)
          : ℚ) - 2 := by
  unfold estimation_value_update
  rw [if_pos hgate, getLastD_set_last]
  unfold estimation_rate_value x_axis_vital_signs_spectrum
  rfl

/-- Witness for the amended C7 at a concrete input. -/
theorem c7_amended_witness :
    0 < (List.replicate 2000 (41 : ℚ)).getD estimation_index_breathing 0 ∧
      (estimation_value_update estimation_index_breathing (List.replicate 2000 (0 : ℚ))
          (List.replicate 2000 (41 : ℚ))).getLastD 0
        = ((pyRound ((-(vital_signs_sample_rate : ℚ) / 2
              + (pyRound ((fft_size_vital_signs : ℚ) / 2
                  + listMean ((List.replicate 2000 (41 : ℚ)).drop estimation_index_breathing))
                  : ℚ)
                * ((vital_signs_sample_rate : ℚ) / ((fft_size_vital_signs : ℚ) - 1))) * 60)
            : ℤ) : ℚ) - 2 := by
  have hei : estimation_index_breathing = 1900 := by decide
  have hgate : 0 < (List.replicate 2000 (41 : ℚ)).getD estimation_index_breathing 0 := by
    rw [hei, getD_replicate_of_lt 2000 1900 (41 : ℚ) 0 (by norm_num)]
    norm_num
  exact ⟨hgate, c7_amended_rate_value estimation_index_breathing _ _ hgate⟩

/- ~~~~~~~~~~ C8: presence gate and OSC telemetry (lines 416-513) ~~~~~~~~~~ -/

def ENABLE_OSC_OUTPUT : Bool := true

/-- numpy `np.max` over a (nonempty) 1-D array. -/
def listMax : List ℚ → ℚ
  | [] => 0
  | x :: xs => xs.foldl max x

/-- Line 419 / 427: the trailing 5 seconds of a slow-time buffer. -/
def recent_window_of (b : List ℚ) : List ℚ := lastN (5 * vital_signs_sample_rate) b

/-- Lines 463-475: the estimated rate in Hz sent over OSC — the mean of the
trailing estimation window of the rate-value buffer divided by 60 when that
mean is positive (and the buffer is nonempty), else 0. -/
def rate_hz_of (values : List ℚ) : ℚ :=
  if 0 < values.length
      ∧ 0 < listMean (lastN (estimation_time * vital_signs_sample_rate) values) then
    listMean (lastN (estimation_time * vital_signs_sample_rate) values) / 60
  else 0

/-- Line 438: the 5-second mean used as the baseline. -/
def breathing_baseline (fb : List ℚ) : ℚ := listMean (recent_window_of fb)

/-- Line 439: trailing peak absolute deviation plus an epsilon. -/
def breathing_amplitude (fb : List ℚ) : ℚ :=
  listMax ((recent_window_of fb).map (fun x => |x - breathing_baseline fb|)) + 0.0001

/-- Line 442: the normalized current breathing value. -/
def normalized_breathing (fb : List ℚ) : ℚ :=
  (fb.getLastD 0 - breathing_baseline fb) / breathing_amplitude fb

/-- Lines 445-446: circle size, clamped to [30, 100]. -/
def circle_size_of (fb : List ℚ) : ℚ :=
  max 30 (min 100 (50 + 40 * normalized_breathing fb))

/-- Lines 450-451: the OSC amplitude value, clamped to [0.1, 1.0]. -/
def osc_value_of (fb : List ℚ) : ℚ :=
  max 0.1 (min 1.0 (0.1 + 0.9 * (circle_size_of fb - 30) / 70))

/-- The five scalars sent to the OSC collaborator per update: the payloads of
the messages "/xhz", "/yhz", "/xratio", "/yratio" and "/presence". -/
structure OscValues where
  xhz : ℚ
  yhz : ℚ
  xamp : ℚ
  yamp : ℚ
  present : ℚ

/-- Lines 416-513 of `update_plots` restricted to the OSC telemetry: `none`
when one of the emptiness guards fails and no message is sent, otherwise the
tuple of sent values.  The presence branch (line 432 guard true) sends
breathing Hz, half-scaled heart Hz, the clamped amplitude twice, and
presence 1 (inside the `len(recent_breathing) > 2` check of line 454); the
no-person branch sends exactly (0 Hz, 0 Hz, 0.1, 0.1, presence 0). -/
def osc_telemetry (fb env brv hrv : List ℚ) : Option OscValues :=
  if 0 < fb.length then
    if 0 < (recent_window_of fb).length then
      if min_variance_threshold < listVar (recent_window_of fb)
          ∧ min_envelope_threshold < listMean (recent_window_of env) then
        if 2 < (recent_window_of fb).length then
          some ⟨rate_hz_of brv, rate_hz_of hrv / 2, osc_value_of fb, osc_value_of fb, 1⟩
        else none
      else some ⟨0, 0, 1 / 10, 1 / 10, 0⟩
    else none
  else none

/-- C8: presence is asserted (the telemetry presence payload is 1) if and only
if the variance of the last 5 seconds of filtered breathing exceeds the
minimum-variance threshold and the mean envelope over the same window exceeds
the minimum-envelope threshold; whenever the gate fails, the telemetry is
exactly (0 Hz, 0 Hz, 0.1, 0.1, presence 0), regardless of the rate-estimator
buffers `brv` and `hrv`. -/
theorem c8_presence_gate (fb env brv hrv : List ℚ)
    (hfb : fb.length = buffer_data_size) :
    ((osc_telemetry fb env brv hrv).map OscValues.present = some 1
        ↔ (min_variance_threshold < listVar (recent_window_of fb)
            ∧ min_envelope_threshold < listMean (recent_window_of env))) ∧
      (¬ (min_variance_threshold < listVar (recent_window_of fb)
            ∧ min_envelope_threshold < listMean (recent_window_of env)) →
        osc_telemetry fb env brv hrv = some ⟨0, 0, 1 / 10, 1 / 10, 0⟩) := by
  have hfb0 : 0 < fb.length := by
    rw [hfb]
    decide
  have hrec : (recent_window_of fb).length = 100 := by
    unfold recent_window_of
    rw [lastN_length _ _ (by rw [hfb]; decide)]
    decide
  unfold osc_telemetry
  rw [if_pos hfb0, if_pos (by rw [hrec]; norm_num)]
  by_cases hgate : min_variance_threshold < listVar (recent_window_of fb)
      ∧ min_envelope_threshold < listMean (recent_window_of env)
  · rw [if_pos hgate, if_pos (by rw [hrec]; norm_num)]
    refine ⟨⟨fun _ => hgate, fun _ => rfl⟩, fun hneg => absurd hgate hneg⟩
  · rw [if_neg hgate]
    refine ⟨⟨?_, fun hg => absurd hg hgate⟩, fun _ => rfl⟩
    intro hpres
    simp only [Option.map_some'] at hpres
    have h01 : (0 : ℚ) = 1 := Option.some.inj hpres
    norm_num at h01

/-- Witness for C8: all-zero buffers fail the variance gate, so the telemetry
is the zero/neutral tuple. -/
theorem c8_presence_gate_witness :
    (List.replicate 2000 (0 : ℚ)).length = buffer_data_size ∧
      osc_telemetry (List.replicate 2000 (0 : ℚ)) (List.replicate 2000 0) [] []
        = some ⟨0, 0, 1 / 10, 1 / 10, 0⟩ := by
  have hlen : (List.replicate 2000 (0 : ℚ)).length = buffer_data_size := by
    rw [List.length_replicate]
    decide
  refine ⟨hlen, ?_⟩
  apply (c8_presence_gate _ _ _ _ hlen).2
  intro hgate
  have hrec : recent_window_of (List.replicate 2000 (0 : ℚ)) = List.replicate 100 0 := by
    unfold recent_window_of lastN
    rw [List.length_replicate, List.drop_replicate]
    norm_num [vital_signs_sample_rate, frame_rate]
  rw [hrec] at hgate
  have hvar : listVar (List.replicate 100 (0 : ℚ)) = 0 := by
    simp [listVar, listMean, List.map_replicate, List.sum_replicate]
  rw [hvar] at hgate
  have hcontra := hgate.1
  norm_num [min_variance_threshold] at hcontra

/- ~~~~~~~~~~ C9: live band-edge reconfiguration (lines 665-675, 682-691) ~~~~~~~~~~ -/

/-- The mutable filter configuration of one band: edges, FIR coefficients and
spectral search-index bounds. -/
structure VitalFilterCfg where
  low : ℚ
  high : ℚ
  b : List ℚ
  index_start : ℕ
  index_end : ℕ

/-- Lines 665-675 (`linear_region_breathing_changed`) and 682-691
(`linear_region_heart_changed`), which are textually identical up to the band:
the requested region is applied only when `region[0] < rate/4`,
`region[1] < rate/2`, `region[0] > 0` and `region[1] > 0`; an applied change
installs the rebuilt FIR coefficients (`firwin`, whose tap computation is the
function parameter `fw`) and the recomputed search-index bounds; any other
request leaves the configuration untouched and raises nothing. -/
def linear_region_changed (fw : ℚ → ℚ → List ℚ) (region : ℚ × ℚ)
    (s : VitalFilterCfg) : VitalFilterCfg :=
  if region.1 < (vital_signs_sample_rate : ℚ) / 4
      ∧ region.2 < (vital_signs_sample_rate : ℚ) / 2 ∧ 0 < region.1 ∧ 0 < region.2 then
    { low := region.1, high := region.2, b := fw region.1 region.2,
      index_start :=
        (pyInt (region.1 / (vital_signs_sample_rate : ℚ) * (fft_size_vital_signs : ℚ))).toNat,
      index_end :=
        (pyInt (region.2 / (vital_signs_sample_rate : ℚ) * (fft_size_vital_signs : ℚ))).toNat }
  else s

/-- The claim's validity criterion: both edges inside `[0, rate/2]` and not
inverted. -/
def spec_band_edges_valid (low high : ℚ) : Prop :=
  0 ≤ low ∧ low ≤ (vital_signs_sample_rate : ℚ) / 2
    ∧ 0 ≤ high ∧ high ≤ (vital_signs_sample_rate : ℚ) / 2 ∧ low ≤ high

/-- C9 counterexample: the request (6, 8) is valid by the claim's criterion
(inside [0, 10] and not inverted), yet the handler ignores it — the breathing
configuration keeps its previous search bound 12 instead of the recomputed
480 — because the code additionally requires the lower edge to be below
`rate/4 = 5`. -/
theorem c9_counterexample :
    spec_band_edges_valid 6 8 ∧
      linear_region_changed (fun _ _ => []) (6, 8)
          ⟨low_breathing, high_breathing, [], 12, 48⟩
        = ⟨low_breathing, high_breathing, [], 12, 48⟩ ∧
      (pyInt ((6 : ℚ) / (vital_signs_sample_rate : ℚ) * (fft_size_vital_signs : ℚ))).toNat
        = 480 := by
  refine ⟨?_, ?_, ?_⟩
  · unfold spec_band_edges_valid
    norm_num [vital_signs_sample_rate, frame_rate]
  · unfold linear_region_changed
    rw [if_neg]
    intro h
    have h1 := h.1
    norm_num [vital_signs_sample_rate, frame_rate] at h1
  · have hval : (6 : ℚ) / (vital_signs_sample_rate : ℚ) * (fft_size_vital_signs : ℚ)
        = 480 := by
      norm_num [vital_signs_sample_rate, frame_rate, fft_size_vital_signs,
        processing_data_size, processing_window_time]
    rw [hval, pyInt_eq_floor _ (by norm_num)]
    have hfl : ⌊(480 : ℚ)⌋ = 480 := by norm_num
    rw [hfl]
    decide

/-- C9 amended: a live band-edge change is applied exactly when
`low < rate/4`, `high < rate/2`, `low > 0` and `high > 0` (all strict) — not
when the edges lie in `[0, rate/2]` and are not inverted.  A rejected request
(including claim-valid ones such as a lower edge in `[rate/4, rate/2]`)
retains the previous FIR coefficients and search-index bounds without error,
and an accepted request installs the rebuilt filter and recomputed bounds.
The statement is generic in the `firwin` tap computation `fw` and covers the
breathing and heart handlers alike. -/
theorem c9_amended_region_guard (fw : ℚ → ℚ → List ℚ) (region : ℚ × ℚ)
    (s : VitalFilterCfg) :
    (¬ (region.1 < (vital_signs_sample_rate : ℚ) / 4
          ∧ region.2 < (vital_signs_sample_rate : ℚ) / 2
          ∧ 0 < region.1 ∧ 0 < region.2) →
        linear_region_changed fw region s = s) ∧
      ((region.1 < (vital_signs_sample_rate : ℚ) / 4
          ∧ region.2 < (vital_signs_sample_rate : ℚ) / 2
          ∧ 0 < region.1 ∧ 0 < region.2) →
        linear_region_changed fw region s
          = ⟨region.1, region.2, fw region.1 region.2,
              (pyInt (region.1 / (vital_signs_sample_rate : ℚ)
                * (fft_size_vital_signs : ℚ))).toNat,
              (pyInt (region.2 / (vital_signs_sample_rate : ℚ)
                * (fft_size_vital_signs : ℚ))).toNat⟩) := by
  constructor
  · intro h
    unfold linear_region_changed
    rw [if_neg h]
  · intro h
    unfold linear_region_changed
    rw [if_pos h]

/-- Witness for the amended C9: the claim-valid request (6, 8) is rejected and
the previous configuration is retained. -/
theorem c9_amended_witness :
    ¬ ((6 : ℚ) < (vital_signs_sample_rate : ℚ) / 4
        ∧ (8 : ℚ) < (vital_signs_sample_rate : ℚ) / 2 ∧ (0 : ℚ) < 6 ∧ (0 : ℚ) < 8) ∧
      linear_region_changed (fun _ _ => []) (6, 8)
          ⟨low_breathing, high_breathing, [], 12, 48⟩
        = ⟨low_breathing, high_breathing, [], 12, 48⟩ := by
  have hneg : ¬ ((6 : ℚ) < (vital_signs_sample_rate : ℚ) / 4
      ∧ (8 : ℚ) < (vital_signs_sample_rate : ℚ) / 2 ∧ (0 : ℚ) < 6 ∧ (0 : ℚ) < 8) := by
    intro h
    have h1 := h.1
    norm_num [vital_signs_sample_rate, frame_rate] at h1
  exact ⟨hneg,
    (c9_amended_region_guard (fun _ _ => []) (6, 8)
      ⟨low_breathing, high_breathing, [], 12, 48⟩).1 hneg⟩

/- ~~~~~~~~~~ C10: unwrap write-back touches only the trailing window ~~~~~~~~~~ -/

theorem getD_take_of_lt {α : Type} (l : List α) (m i : ℕ) (d : α) (h : i < m) :
    (l.take m).getD i d = l.getD i d := by
  rw [List.getD_eq_getD_get?, List.getD_eq_getD_get?, List.get?_eq_getElem?,
    List.get?_eq_getElem?, List.getElem?_take_of_lt h]

theorem getD_drop' {α : Type} (l : List α) (n i : ℕ) (d : α) :
    (l.drop n).getD i d = l.getD (n + i) d := by
  rw [List.getD_eq_getD_get?, List.getD_eq_getD_get?, List.get?_eq_getElem?,
    List.get?_eq_getElem?, List.getElem?_drop]

/-- C10: the unwrap stage writes only the trailing `processing_data_size`
window: every buffer entry outside that window equals the corresponding
rolled previous value — `np.unwrap` never reaches it, so values that left the
recompute window are never retroactively corrected. -/
theorem c10_unwrap_prefix_untouched (p : ℚ) (b : List ℚ) (w : ℚ)
    (hlen : b.length = buffer_data_size) :
    (unwrapped_phase_update p b w).take (buffer_data_size - processing_data_size)
        = (b.drop 1).take (buffer_data_size - processing_data_size) ∧
      ∀ i, i < buffer_data_size - processing_data_size →
        (unwrapped_phase_update p b w).getD i 0 = b.getD (i + 1) 0 := by
  have hbne : b ≠ [] := by
    intro he
    rw [he] at hlen
    simp at hlen
    exact absurd hlen.symm (by decide)
  have htake : (unwrapped_phase_update p b w).take (buffer_data_size - processing_data_size)
      = (b.drop 1).take (buffer_data_size - processing_data_size) := by
    unfold unwrapped_phase_update
    rw [set_last_np_roll_one b w hbne]
    have hlen2 : (ring_push b w).length = b.length := length_ring_push b w hbne
    rw [hlen2, hlen]
    have hfirst : ((ring_push b w).take (buffer_data_size - processing_data_size)).length
        = buffer_data_size - processing_data_size := by
      rw [List.length_take, hlen2, hlen]
      exact min_eq_left (Nat.sub_le _ _)
    rw [List.take_left' hfirst]
    unfold ring_push
    rw [List.take_append_of_le_length]
    rw [List.length_drop, hlen]
    norm_num [buffer_data_size, processing_data_size, buffer_time, processing_window_time,
      vital_signs_sample_rate, frame_rate]
  refine ⟨htake, ?_⟩
  intro i hi
  have h1 : (unwrapped_phase_update p b w).getD i 0
      = ((unwrapped_phase_update p b w).take
          (buffer_data_size - processing_data_size)).getD i 0 :=
    (getD_take_of_lt _ _ _ _ hi).symm
  rw [h1, htake, getD_take_of_lt _ _ _ _ hi, getD_drop', Nat.add_comm 1 i]

/- ~~~~~~~~~~ C4: the global ring-buffer invariant ~~~~~~~~~~ -/

theorem ne_nil_of_length_buffer {α : Type} (l : List α) (h : l.length = buffer_data_size) :
    l ≠ [] := by
  intro he
  subst he
  simp only [List.length_nil] at h
  exact absurd h.symm (by decide)

theorem drop1_ne_nil_of_length_buffer {α : Type} (l : List α)
    (h : l.length = buffer_data_size) : l.drop 1 ≠ [] := by
  have hl : (l.drop 1).length = l.length - 1 := by simp
  intro he
  rw [he] at hl
  simp only [List.length_nil] at hl
  rw [h] at hl
  exact absurd hl.symm (by decide)

theorem set_last_set_last {α : Type} (l : List α) (a v : α) :
    set_last (set_last l a) v = set_last l v := by
  unfold set_last
  rw [List.dropLast_concat]

set_option maxRecDepth 4096 in
/-- C4: every slow-time ring buffer keeps length exactly `buffer_data_size`
across every update, each update is the FIFO push `ring_push` (drop the
oldest entry at index 0, append the newest at the end) of the cycle's computed
value — including the unwrapped-phase buffer, whose trailing-window `np.unwrap`
write-back collapses to a single push under the window invariant, which is
itself preserved — and iterating pushes makes the newest `N` entries
(`N ≤ capacity`, `N` at most the number of pushes) equal the sequence of
pushed values. -/
theorem c4_ring_buffer_invariant
    (p dt wphase env_v fb_v fh_v : ℚ) (sample : ℚ × ℚ)
    (ts env wph uph fb fh idxs ridx vals vidx rfa fft_ws : List ℚ) (iq : List (ℚ × ℚ))
    (s e i0 i1 est_index : ℕ) (d : ℚ)
    (hp : 0 < p)
    (hts : ts.length = buffer_data_size) (hiq : iq.length = buffer_data_size)
    (henv : env.length = buffer_data_size) (hwph : wph.length = buffer_data_size)
    (huph : uph.length = buffer_data_size) (hfb : fb.length = buffer_data_size)
    (hfh : fh.length = buffer_data_size) (hidxs : idxs.length = buffer_data_size)
    (hridx : ridx.length = buffer_data_size) (hvals : vals.length = buffer_data_size)
    (hchain : List.Chain' (diffBounded p) (lastN processing_data_size uph)) :
    (radar_time_stamp_update ts dt = ring_push ts (ts.getLastD 0 + dt)
        ∧ (radar_time_stamp_update ts dt).length = buffer_data_size)
      ∧ (slow_time_buffer_update iq sample = ring_push iq sample
        ∧ (slow_time_buffer_update iq sample).length = buffer_data_size)
      ∧ (I_Q_envelop_update env env_v = ring_push env env_v
        ∧ (I_Q_envelop_update env env_v).length = buffer_data_size)
      ∧ (wrapped_phase_update wph wphase = ring_push wph wphase
        ∧ (wrapped_phase_update wph wphase).length = buffer_data_size)
      ∧ (filtered_plot_update fb fb_v = ring_push fb fb_v
        ∧ (filtered_plot_update fb fb_v).length = buffer_data_size)
      ∧ (filtered_plot_update fh fh_v = ring_push fh fh_v
        ∧ (filtered_plot_update fh fh_v).length = buffer_data_size)
      ∧ (range_profile_peak_indices_update idxs rfa s e
          = ring_push idxs ((argmax_idx (pySlice rfa s e) + s : ℕ) : ℚ)
        ∧ (range_profile_peak_indices_update idxs rfa s e).length = buffer_data_size)
      ∧ (rate_index_update ridx fft_ws i0 i1 d
          = ring_push ridx (if find_signal_peaks fft_ws i0 i1 d ≠ 0
              then ((find_signal_peaks fft_ws i0 i1 d : ℕ) : ℚ) else ridx.getLastD 0)
        ∧ (rate_index_update ridx fft_ws i0 i1 d).length = buffer_data_size)
      ∧ (unwrapped_phase_update p uph wphase
          = ring_push uph (uph.getLastD 0 + unwrap_diff p (wphase - uph.getLastD 0))
        ∧ (unwrapped_phase_update p uph wphase).length = buffer_data_size
        ∧ List.Chain' (diffBounded p)
            (lastN processing_data_size (unwrapped_phase_update p uph wphase)))
      ∧ ((0 < vidx.getD est_index 0 →
            estimation_value_update est_index vals vidx
              = ring_push vals (estimation_rate_value est_index vidx))
        ∧ (¬ 0 < vidx.getD est_index 0 → estimation_value_update est_index vals vidx = vals)
        ∧ (estimation_value_update est_index vals vidx).length = buffer_data_size)
      ∧ (∀ (N : ℕ) (vs l : List ℚ), l.length = buffer_data_size → N ≤ vs.length →
          N ≤ buffer_data_size → lastN N (push_all l vs) = lastN N vs) := by
  have hpush : ∀ (l : List ℚ) (v : ℚ), l.length = buffer_data_size →
      set_last (np_roll_one l) v = ring_push l v
        ∧ (set_last (np_roll_one l) v).length = buffer_data_size := by
    intro l v hl
    have hne := ne_nil_of_length_buffer l hl
    rw [set_last_np_roll_one l v hne]
    exact ⟨rfl, (length_ring_push l v hne).trans hl⟩
  have hiqne := ne_nil_of_length_buffer iq hiq
  refine ⟨?_, ?_, ?_, ?_, ?_, ?_, ?_, ?_, ?_, ?_, ?_⟩
  · -- timestamp buffer (lines 175-176)
    have hne := ne_nil_of_length_buffer ts hts
    have hd1 := drop1_ne_nil_of_length_buffer ts hts
    unfold radar_time_stamp_update
    rw [np_roll_one_dropLast ts hne, getLastD_drop ts 1 0 hd1,
      set_last_np_roll_one ts _ hne]
    exact ⟨rfl, (length_ring_push ts _ hne).trans hts⟩
  · -- slow-time I/Q buffer (lines 187, 199/201)
    unfold slow_time_buffer_update
    rw [set_last_np_roll_one iq sample hiqne]
    exact ⟨rfl, (length_ring_push iq sample hiqne).trans hiq⟩
  · -- envelope buffer (lines 188, 204)
    exact hpush env env_v henv
  · -- wrapped-phase buffer (lines 211-212)
    exact hpush wph wphase hwph
  · -- filtered breathing buffer (lines 233-234)
    exact hpush fb fb_v hfb
  · -- filtered heart buffer (lines 239-240)
    exact hpush fh fh_v hfh
  · -- peak-index buffer (lines 193-195)
    exact hpush idxs _ hidxs
  · -- rate-estimation index buffer (lines 259-271)
    have hne := ne_nil_of_length_buffer ridx hridx
    by_cases hr : find_signal_peaks fft_ws i0 i1 d = 0
    · rw [rate_index_update_no_peak ridx fft_ws i0 i1 d hr (by rw [hridx]; decide),
        if_neg (not_not_intro hr)]
      exact ⟨rfl, (length_ring_push ridx _ hne).trans hridx⟩
    · unfold rate_index_update
      rw [if_pos hr, if_pos hr, set_last_set_last, set_last_np_roll_one ridx _ hne]
      exact ⟨rfl, (length_ring_push ridx _ hne).trans hridx⟩
  · -- unwrapped-phase buffer (lines 214-218)
    have hne := ne_nil_of_length_buffer uph huph
    have hwb := unwrap_writeback_eq_ring_push p hp processing_data_size uph wphase
      (by decide)
      (by rw [huph]
          norm_num [processing_data_size, buffer_data_size, buffer_time,
            processing_window_time, vital_signs_sample_rate, frame_rate]) hchain
    rw [unwrapped_phase_update_eq p uph wphase hne, hwb.1]
    exact ⟨rfl, (length_ring_push uph _ hne).trans huph, hwb.2⟩
  · -- rate-estimation value buffers (lines 383-397)
    have hne := ne_nil_of_length_buffer vals hvals
    refine ⟨?_, ?_, ?_⟩
    · intro hg
      unfold estimation_value_update
      rw [if_pos hg, set_last_np_roll_one vals _ hne]
    · intro hg
      unfold estimation_value_update
      rw [if_neg hg]
    · unfold estimation_value_update
      by_cases hg : 0 < vidx.getD est_index 0
      · rw [if_pos hg, set_last_np_roll_one vals _ hne]
        exact (length_ring_push vals _ hne).trans hvals
      · rw [if_neg hg]
        exact hvals
  · -- FIFO / newest-N property of iterated pushes
    intro N vs l hl hNvs hNcap
    exact lastN_push_all vs l N (ne_nil_of_length_buffer l hl) hNvs (by rw [hl]; exact hNcap)

/-- The all-zero initial contents of a slow-time buffer
(`np.zeros(buffer_data_size)`, lines 869-885). -/
def zero_buffer : List ℚ := List.replicate 2000 0

/-- The all-zero initial contents of the complex slow-time buffer. -/
def zero_iq_buffer : List (ℚ × ℚ) := List.replicate 2000 (0, 0)

theorem zero_buffer_length : zero_buffer.length = buffer_data_size := by
  unfold zero_buffer
  rw [List.length_replicate]
  norm_num [buffer_data_size, buffer_time, processing_window_time,
    vital_signs_sample_rate, frame_rate]

theorem zero_iq_buffer_length : zero_iq_buffer.length = buffer_data_size := by
  unfold zero_iq_buffer
  rw [List.length_replicate]
  norm_num [buffer_data_size, buffer_time, processing_window_time,
    vital_signs_sample_rate, frame_rate]

theorem zero_buffer_window_chain :
    List.Chain' (diffBounded 1) (lastN processing_data_size zero_buffer) := by
  have hwin : lastN processing_data_size zero_buffer = List.replicate 400 0 := by
    unfold zero_buffer lastN
    rw [List.length_replicate, List.drop_replicate]
    norm_num [processing_data_size, processing_window_time, vital_signs_sample_rate,
      frame_rate]
  rw [hwin]
  apply List.chain'_replicate_of_rel
  unfold diffBounded
  norm_num

attribute [irreducible] zero_buffer zero_iq_buffer

set_option maxRecDepth 2048 in
/-- Witness for C4 at a concrete state: the all-zero initial buffers satisfy
every hypothesis (all window differences are zero), and the theorem yields the
timestamp push equation at that state. -/
theorem c4_ring_buffer_invariant_witness :
    radar_time_stamp_update zero_buffer 0
      = ring_push zero_buffer (zero_buffer.getLastD 0 + 0) := by
  have h1 := c4_ring_buffer_invariant 1 0 0 0 0 0 (0, 0)
    zero_buffer zero_buffer zero_buffer zero_buffer zero_buffer zero_buffer
    zero_buffer zero_buffer zero_buffer zero_buffer [] [] zero_iq_buffer
    0 0 0 0 0 0
    one_pos zero_buffer_length zero_iq_buffer_length zero_buffer_length
    zero_buffer_length zero_buffer_length zero_buffer_length zero_buffer_length
    zero_buffer_length zero_buffer_length zero_buffer_length
    zero_buffer_window_chain
  exact h1.1.1

/-- Witness for C10 at a concrete state. -/
theorem c10_unwrap_prefix_witness :
    (unwrapped_phase_update 1 zero_buffer 0).take (buffer_data_size - processing_data_size)
      = (zero_buffer.drop 1).take (buffer_data_size - processing_data_size) :=
  (c10_unwrap_prefix_untouched 1 zero_buffer 0 zero_buffer_length).1
